import Mathlib

/-!
Verification of the resumable, schema-evolving tabular logger implemented by
the class FileWriter in thinker/core/file_writer.py.

The embedding below translates the relevant parts of the source into Lean:

* Python dictionaries become association lists in insertion order
  (assignment keeps the position of an existing key and appends a new key
  at the end, exactly like a Python dict).
* The CSV file already on disk is modelled as the list of rows that
  csv.reader returns: a list of lists of field strings.  A file that ends
  with a newline yields no extra empty row, matching csv.reader.
* Wall-clock readings (time.time and datetime.now) are supplied by the
  caller as abstract integer timestamps.
* The open file handle is a boolean flag; a write on a released handle
  raises, which the embedding records as an error value returned to the
  caller instead of performing the write.
* The possibility that rewriting the metadata file raises is an explicit
  boolean input of the close operation, so the control flow of close can
  be examined on both outcomes.
-/

namespace FileWriter

/-- Whitespace stripped by the Python int conversion before parsing. -/
def isPySpace (c : Char) : Bool :=
  c = ' ' || c = '\t' || c = '\n' || c = '\r' || c = '\x0b' || c = '\x0c'

/-- Models the Python builtin int applied to a string, as used in
`int(lines[-2][0])`: optional surrounding whitespace, an optional sign,
then one or more decimal digits; `none` models the ValueError raised on
any other text (underscore digit separators are not modelled). -/
def pyInt (s : String) : Option Int :=
  let cs := ((s.toList.dropWhile isPySpace).reverse.dropWhile isPySpace).reverse
  match cs with
  | [] => none
  | c :: rest =>
    let p := if c = '-' then (true, rest) else if c = '+' then (false, rest) else (false, c :: rest)
    if p.2 ≠ [] ∧ p.2.all Char.isDigit then
      let n : Nat := p.2.foldl (fun a d => a * 10 + (d.toNat - 48)) 0
      some (if p.1 then -(n : Int) else (n : Int))
    else none

/-- A value stored in a row record.  Integer values cover the system
managed `_tick` counter and the abstract `_time` clock reading; strings
cover everything read back from disk and ordinary payload fields. -/
inductive Value where
  | int : Int → Value
  | str : String → Value
deriving DecidableEq, Repr

/-- Python dict assignment `d[k] = v` on an insertion-ordered association
list: replaces the value in place when the key is present, otherwise
appends the new key at the end of the insertion order. -/
def dictSet : List (String × Value) → String → Value → List (String × Value)
  | [], k, v => [(k, v)]
  | (a, b) :: t, k, v => if a = k then (k, v) :: t else (a, b) :: dictSet t k v

/-- Python dict lookup `d[k]` (as an Option). -/
def dictGet : List (String × Value) → String → Option Value
  | [], _ => none
  | (a, b) :: t, k => if a = k then some b else dictGet t k

/-- One step of the column-discovery loop body
`if k not in self.fieldnames: self.fieldnames.append(k)`. -/
def addCol (acc : List String) (k : String) : List String :=
  if k ∈ acc then acc else acc ++ [k]

/-- The loop `for k in to_log: if k not in self.fieldnames:
self.fieldnames.append(k)` run over the key list `ks`. -/
def updateFields (fns ks : List String) : List String :=
  ks.foldl addCol fns

/-- Revision-control context gathered at start (commit, branch, repo path). -/
structure GitData where
  commit : String
  branch : Option String
  path : String
  deriving DecidableEq, Repr

/-- The metadata record assembled by gather_metadata and extended in
__init__ with the deep-copied args and the run id, keyed as in the
source.  Timestamps are abstract integers whose order models the
chronological order of the formatted timestamp strings. -/
structure Metadata where
  date_start : Int
  date_end : Option Int
  successful : Bool
  git : Option GitData
  slurm : Option (List (String × String))
  env : List (String × String)
  args : List (String × String)
  xpid : String
  deriving DecidableEq, Repr

/-- The error surfaced when log is called after close: the write on the
released handle raises to the caller. -/
inductive LogError where
  | closedLog
  deriving DecidableEq, Repr

/-- The error raised out of close when rewriting the metadata file fails. -/
inductive CloseErr where
  | metaWriteFailed
  deriving DecidableEq, Repr

/-- The mutable state of one FileWriter instance, together with the parts
of the disk it owns: the lines appended to the logs csv during this run
and the current content of the metadata file. -/
structure FileWriterState where
  fieldnames : List String
  tick : Int
  fileClosed : Bool
  outLines : List String
  metadata : Metadata
  diskMeta : Option Metadata
  deriving DecidableEq, Repr

/-- Outcome of the resume logic of __init__ (source lines 158 to 178):
the recovered column list and next tick, whether the integer parse of the
prior tick failed with a warning (warnings.warn), and whether the
existing-file warning was emitted on the message sink. -/
structure InitResult where
  fieldnames : List String
  tick : Int
  parseWarned : Bool
  resumeWarned : Bool
  deriving DecidableEq, Repr

/-- Normalisation of the legacy header spelling:
`[x if x != "# _tick" else "_tick" for x in self.fieldnames]`, applied
only when `"# _tick" in self.fieldnames`. -/
def normalizeTick (h : List String) : List String :=
  if "# _tick" ∈ h then h.map (fun x => if x = "# _tick" then "_tick" else x) else h

/-- The resume logic of __init__.  `file` is `none` when the logs csv
does not exist, otherwise the rows csv.reader yields.  With a file
present: when at least one row exists the first row becomes the column
list (legacy spelling normalised); when at least two rows exist and the
second-to-last row `lines[-2]` is nonempty, the next tick is
`int(lines[-2][0]) + 1`, and a parse failure warns and leaves the tick
at 0. -/
def initResume (file : Option (List (List String))) : InitResult :=
  match file with
  | none =>
    { fieldnames := ["_tick", "_time"], tick := 0, parseWarned := false, resumeWarned := false }
  | some lines =>
    let fns := if 0 < lines.length then normalizeTick (lines.headD []) else ["_tick", "_time"]
    let prev := lines.getD (lines.length - 2) []
    if 2 ≤ lines.length ∧ 0 < prev.length then
      match pyInt (prev.headD "") with
      | some n =>
        { fieldnames := fns, tick := n + 1, parseWarned := false, resumeWarned := true }
      | none =>
        { fieldnames := fns, tick := 0, parseWarned := true, resumeWarned := true }
    else
      { fieldnames := fns, tick := 0, parseWarned := false, resumeWarned := true }

/-- Construction of a FileWriter against the given on-disk logs csv, with
the metadata gathered at start supplied as `m0`.  The log file handle is
open for append afterwards. -/
def initFileWriter (file : Option (List (List String))) (m0 : Metadata) : FileWriterState :=
  let r := initResume file
  { fieldnames := r.fieldnames
    tick := r.tick
    fileClosed := false
    outLines := []
    metadata := m0
    diskMeta := none }

/-- String form of a value as csv.DictWriter writes it. -/
def valueStr : Value → String
  | Value.int n => toString n
  | Value.str s => s

/-- One csv row as DictWriter emits it: fields in column order, a key
missing from the record leaves its slot empty (csv quoting of fields that
contain commas is not modelled; no claim depends on it). -/
def encodeRow (fns : List String) (d : List (String × Value)) : String :=
  String.intercalate "," (fns.map (fun k =>
    match dictGet d k with
    | some v => valueStr v
    | none => ""))

/-- Everything one call to log produces: the caller record after the
in-place mutation, the tick that was assigned to it, whether a header
line was written, the error raised (when the handle was already
released), and the successor state. -/
structure LogResult where
  record : List (String × Value)
  assignedTick : Int
  headerWritten : Bool
  error : Option LogError
  state : FileWriterState
  deriving DecidableEq, Repr

/-- The log method.  In source order: `to_log["_tick"] = self._tick`,
`self._tick += 1`, `to_log["_time"] = time.time()`, the column-discovery
loop over the mutated record, then the header write when
`to_log["_tick"] == 0`, the row write and the flush.  The record
mutation, tick increment and column growth all happen before any file
write, so they also happen when the handle is already released and the
write raises. -/
def log (s : FileWriterState) (now : Int) (toLog : List (String × Value)) : LogResult :=
  let toLog1 := dictSet toLog "_tick" (Value.int s.tick)
  let tickNew := s.tick + 1
  let toLog2 := dictSet toLog1 "_time" (Value.int now)
  let fns := updateFields s.fieldnames (toLog2.map Prod.fst)
  if s.fileClosed then
    { record := toLog2
      assignedTick := s.tick
      headerWritten := false
      error := some LogError.closedLog
      state := { s with tick := tickNew, fieldnames := fns } }
  else
    { record := toLog2
      assignedTick := s.tick
      headerWritten := decide (s.tick = 0)
      error := none
      state := { s with
                 tick := tickNew
                 fieldnames := fns
                 outLines := s.outLines
                   ++ (if s.tick = 0 then [String.intercalate "," fns] else [])
                   ++ [encodeRow fns toLog2] } }

/-- The close method, in source order: set date_end and successful on the
metadata record, rewrite the metadata file, then release the log file
handle.  There is no try/finally around the metadata write: when it
raises, the raise propagates immediately and the handle release line is
never reached, which the embedding expresses by returning with the
handle flag untouched. -/
def close (s : FileWriterState) (nowEnd : Int) (successful : Bool) (metaWriteFails : Bool) :
    FileWriterState × Option CloseErr :=
  let md := { s.metadata with date_end := some nowEnd, successful := successful }
  let s1 := { s with metadata := md }
  if metaWriteFails then
    (s1, some CloseErr.metaWriteFailed)
  else
    ({ s1 with diskMeta := some md, fileClosed := true }, none)

/-- The metadata collision policy of __init__ (source lines 136 to 145):
`disk` is the current content of the metadata file path (none when
absent) and `fresh` the newly gathered metadata to save.  Returns the
disk content afterwards and whether the skip warning was emitted. -/
def metaOpenPolicy (disk : Option String) (overwrite : Bool) (fresh : String) :
    Option String × Bool :=
  match disk with
  | some old => if !overwrite then (some old, true) else (some fresh, false)
  | none => (some fresh, false)

/-- A sequence of log calls: each entry carries the clock reading for the
call and the caller record.  Returns the final state and the per-call
results in call order. -/
def runAppends (s : FileWriterState) : List (Int × List (String × Value)) →
    FileWriterState × List LogResult
  | [] => (s, [])
  | (now, r) :: rest =>
    let res := log s now r
    let tail := runAppends res.state rest
    (tail.1, res :: tail.2)

/-- The two reserved, system-managed columns. -/
def reservedCols : List String := ["_tick", "_time"]

/-- First-seen-order deduplication, the way the spec describes the
ordered union of keys. -/
def dedupFirstSeen (ks : List String) : List String :=
  ks.foldl addCol []

/-- The keys of a list that are not among the given reserved names, in
order. -/
def dropKeys (base : List String) : List String → List String
  | [] => []
  | k :: ks => if k ∈ base then dropKeys base ks else k :: dropKeys base ks

/-- Modelled from the wording of the spec, for comparison with the
column list the code computes: the two reserved columns followed by the
ordered union of the keys of the appended records, in first-seen order,
without the reserved names. -/
def specColumns (records : List (List String)) : List String :=
  reservedCols ++ dedupFirstSeen (dropKeys reservedCols records.flatten)

/-- The key list of a caller record after log has inserted `_tick` and
then `_time` into it (dict assignment appends an absent key at the end). -/
def pyInsertKey (ks : List String) (k : String) : List String :=
  if k ∈ ks then ks else ks ++ [k]

/-- Keys of the mutated record in iteration order. -/
def mutatedKeys (ks : List String) : List String :=
  pyInsertKey (pyInsertKey ks "_tick") "_time"

/-- A sample metadata record, used to instantiate universally quantified
statements at a concrete input. -/
def mdSample : Metadata :=
  { date_start := 1
    date_end := none
    successful := false
    git := none
    slurm := none
    env := [("HOME", "/home/u")]
    args := [("lr", "0.001")]
    xpid := "run1" }

/-- A sample open writer state. -/
def stSample : FileWriterState :=
  { fieldnames := ["_tick", "_time"]
    tick := 3
    fileClosed := false
    outLines := []
    metadata := mdSample
    diskMeta := some mdSample }

theorem dictGet_dictSet_self (d : List (String × Value)) (k : String) (v : Value) :
    dictGet (dictSet d k v) k = some v := by
  induction d with
  | nil => simp [dictSet, dictGet]
  | cons p t ih =>
    obtain ⟨a, b⟩ := p
    by_cases h : a = k
    · simp [dictSet, dictGet, h]
    · simp [dictSet, dictGet, h, ih]

theorem dictGet_dictSet_ne (d : List (String × Value)) (k k' : String) (v : Value)
    (h : k ≠ k') : dictGet (dictSet d k' v) k = dictGet d k := by
  induction d with
  | nil => simp [dictSet, dictGet, Ne.symm h]
  | cons p t ih =>
    obtain ⟨a, b⟩ := p
    simp only [dictSet]
    by_cases ha : a = k'
    · subst ha
      simp [dictGet, Ne.symm h]
    · by_cases hk : a = k
      · subst hk
        simp [dictGet, ha]
      · simp [dictGet, ha, hk, ih]

theorem keys_dictSet (d : List (String × Value)) (k : String) (v : Value) :
    (dictSet d k v).map Prod.fst = pyInsertKey (d.map Prod.fst) k := by
  induction d with
  | nil => simp [dictSet, pyInsertKey]
  | cons p t ih =>
    obtain ⟨a, b⟩ := p
    by_cases h : a = k
    · subst h
      simp [dictSet, pyInsertKey]
    · simp only [dictSet, if_neg h, List.map_cons, ih, pyInsertKey]
      by_cases hm : k ∈ t.map Prod.fst
      · simp [hm, Ne.symm h]
      · simp [hm, Ne.symm h]

theorem log_record (s : FileWriterState) (now : Int) (r : List (String × Value)) :
    (log s now r).record
      = dictSet (dictSet r "_tick" (Value.int s.tick)) "_time" (Value.int now) := by
  simp only [log]
  split <;> rfl

theorem log_record_tick (s : FileWriterState) (now : Int) (r : List (String × Value)) :
    dictGet (log s now r).record "_tick" = some (Value.int s.tick) := by
  rw [log_record, dictGet_dictSet_ne _ _ _ _ (by decide), dictGet_dictSet_self]

theorem log_record_time (s : FileWriterState) (now : Int) (r : List (String × Value)) :
    dictGet (log s now r).record "_time" = some (Value.int now) := by
  rw [log_record, dictGet_dictSet_self]

theorem log_state_tick (s : FileWriterState) (now : Int) (r : List (String × Value)) :
    (log s now r).state.tick = s.tick + 1 := by
  simp only [log]
  split <;> rfl

theorem log_assignedTick (s : FileWriterState) (now : Int) (r : List (String × Value)) :
    (log s now r).assignedTick = s.tick := by
  simp only [log]
  split <;> rfl

theorem log_state_fileClosed (s : FileWriterState) (now : Int) (r : List (String × Value)) :
    (log s now r).state.fileClosed = s.fileClosed := by
  simp only [log]
  split <;> rfl

theorem log_state_fieldnames (s : FileWriterState) (now : Int) (r : List (String × Value)) :
    (log s now r).state.fieldnames
      = updateFields s.fieldnames (mutatedKeys (r.map Prod.fst)) := by
  have hkeys :
      (dictSet (dictSet r "_tick" (Value.int s.tick)) "_time" (Value.int now)).map Prod.fst
        = mutatedKeys (r.map Prod.fst) := by
    rw [keys_dictSet, keys_dictSet, mutatedKeys]
  simp only [log]
  split <;> simp [hkeys]

theorem log_error (s : FileWriterState) (now : Int) (r : List (String × Value)) :
    (log s now r).error = if s.fileClosed then some LogError.closedLog else none := by
  simp only [log]
  split
  · next h => simp [h]
  · next h => simp [h]

theorem log_headerWritten (s : FileWriterState) (now : Int) (r : List (String × Value))
    (h : s.fileClosed = false) :
    (log s now r).headerWritten = decide (s.tick = 0) := by
  simp only [log, h]
  rfl

theorem log_state_metadata (s : FileWriterState) (now : Int) (r : List (String × Value)) :
    (log s now r).state.metadata = s.metadata := by
  simp only [log]
  split <;> rfl

theorem updateFields_nil (fns : List String) : updateFields fns [] = fns := rfl

theorem updateFields_cons (fns : List String) (k : String) (ks : List String) :
    updateFields fns (k :: ks) = updateFields (addCol fns k) ks := rfl

theorem updateFields_append (fns a b : List String) :
    updateFields fns (a ++ b) = updateFields (updateFields fns a) b := by
  simp [updateFields, List.foldl_append]

theorem updateFields_grows (ks fns : List String) :
    ∃ t, updateFields fns ks = fns ++ t := by
  induction ks generalizing fns with
  | nil => exact ⟨[], by simp [updateFields]⟩
  | cons k ks ih =>
    rw [updateFields_cons]
    by_cases h : k ∈ fns
    · simpa [addCol, h] using ih fns
    · obtain ⟨t, ht⟩ := ih (fns ++ [k])
      exact ⟨[k] ++ t, by simp [addCol, h, ht]⟩

theorem mem_updateFields_left (ks fns : List String) (a : String) (h : a ∈ fns) :
    a ∈ updateFields fns ks := by
  obtain ⟨t, ht⟩ := updateFields_grows ks fns
  rw [ht]
  exact List.mem_append_left _ h

theorem mem_updateFields (ks fns : List String) (a : String)
    (h : a ∈ updateFields fns ks) : a ∈ fns ∨ a ∈ ks := by
  induction ks generalizing fns with
  | nil => exact Or.inl h
  | cons k ks ih =>
    rw [updateFields_cons] at h
    rcases ih (addCol fns k) h with hm | hm
    · by_cases hk : k ∈ fns
      · simp only [addCol, if_pos hk] at hm
        exact Or.inl hm
      · simp only [addCol, if_neg hk, List.mem_append, List.mem_singleton] at hm
        rcases hm with hm | hm
        · exact Or.inl hm
        · exact Or.inr (by simp [hm])
    · exact Or.inr (by simp [hm])

theorem nodup_updateFields (ks fns : List String) (h : fns.Nodup) :
    (updateFields fns ks).Nodup := by
  induction ks generalizing fns with
  | nil => exact h
  | cons k ks ih =>
    rw [updateFields_cons]
    by_cases hk : k ∈ fns
    · simpa [addCol, hk] using ih fns h
    · have hsplit : addCol fns k = fns ++ [k] := by simp [addCol, hk]
      rw [hsplit]
      exact ih (fns ++ [k])
        (List.Nodup.append h (List.nodup_singleton k) (by simpa using hk))

theorem updateFields_base_absorb (base : List String) (ks : List String) :
    ∀ acc, List.foldl addCol (base ++ acc) ks
      = base ++ List.foldl addCol acc (dropKeys base ks) := by
  induction ks with
  | nil => intro acc; simp [dropKeys]
  | cons k ks ih =>
    intro acc
    by_cases hk : k ∈ base
    · have h1 : addCol (base ++ acc) k = base ++ acc := by
        simp [addCol, List.mem_append, hk]
      have h2 : dropKeys base (k :: ks) = dropKeys base ks := by simp [dropKeys, hk]
      rw [List.foldl_cons, h1, h2]
      exact ih acc
    · have h2 : dropKeys base (k :: ks) = k :: dropKeys base ks := by simp [dropKeys, hk]
      by_cases ha : k ∈ acc
      · have h1 : addCol (base ++ acc) k = base ++ acc := by
          simp [addCol, List.mem_append, ha]
        have h3 : addCol acc k = acc := by simp [addCol, ha]
        rw [List.foldl_cons, h1, h2, List.foldl_cons, h3]
        exact ih acc
      · have h1 : addCol (base ++ acc) k = base ++ (acc ++ [k]) := by
          simp [addCol, List.mem_append, hk, ha]
        have h3 : addCol acc k = acc ++ [k] := by simp [addCol, ha]
        rw [List.foldl_cons, h1, h2, List.foldl_cons, h3]
        exact ih (acc ++ [k])

theorem dropKeys_append (base a b : List String) :
    dropKeys base (a ++ b) = dropKeys base a ++ dropKeys base b := by
  induction a with
  | nil => simp [dropKeys]
  | cons k a ih =>
    by_cases hk : k ∈ base
    · simp [dropKeys, hk, ih]
    · simp [dropKeys, hk, ih]

theorem dropKeys_pyInsert_absorbed (ks : List String) (k : String)
    (hk : k ∈ reservedCols) :
    dropKeys reservedCols (pyInsertKey ks k) = dropKeys reservedCols ks := by
  unfold pyInsertKey
  by_cases h : k ∈ ks
  · rw [if_pos h]
  · rw [if_neg h, dropKeys_append]
    simp [dropKeys, hk]

theorem dropKeys_mutatedKeys (ks : List String) :
    dropKeys reservedCols (mutatedKeys ks) = dropKeys reservedCols ks := by
  rw [mutatedKeys, dropKeys_pyInsert_absorbed _ _ (by decide),
    dropKeys_pyInsert_absorbed _ _ (by decide)]

theorem dropKeys_flatten_mutated (recKeys : List (List String)) :
    dropKeys reservedCols ((recKeys.map mutatedKeys).flatten)
      = dropKeys reservedCols recKeys.flatten := by
  induction recKeys with
  | nil => rfl
  | cons a L ih =>
    simp only [List.map_cons, List.flatten_cons, dropKeys_append, ih, dropKeys_mutatedKeys]

theorem not_mem_base_of_mem_dropKeys (base ks : List String) (x : String)
    (h : x ∈ dropKeys base ks) : ¬ x ∈ base := by
  induction ks with
  | nil => simp [dropKeys] at h
  | cons k ks ih =>
    by_cases hk : k ∈ base
    · rw [dropKeys, if_pos hk] at h
      exact ih h
    · rw [dropKeys, if_neg hk] at h
      rcases List.mem_cons.mp h with hx | hx
      · subst hx; exact hk
      · exact ih hx

theorem run_fieldnames (es : List (Int × List (String × Value))) (s : FileWriterState) :
    (runAppends s es).1.fieldnames
      = updateFields s.fieldnames
          ((es.map (fun e => mutatedKeys (e.2.map Prod.fst))).flatten) := by
  induction es generalizing s with
  | nil => simp [runAppends, updateFields]
  | cons e es ih =>
    obtain ⟨now, r⟩ := e
    simp only [runAppends, List.map_cons, List.flatten_cons]
    rw [ih, log_state_fieldnames, updateFields_append]

theorem run_fileClosed (es : List (Int × List (String × Value))) (s : FileWriterState) :
    (runAppends s es).1.fileClosed = s.fileClosed := by
  induction es generalizing s with
  | nil => rfl
  | cons e es ih =>
    obtain ⟨now, r⟩ := e
    simp only [runAppends]
    rw [ih, log_state_fileClosed]

theorem run_record_ticks (es : List (Int × List (String × Value))) (s : FileWriterState) :
    (runAppends s es).2.map (fun res => dictGet res.record "_tick")
      = (List.range es.length).map (fun i : Nat => some (Value.int (s.tick + (i : Int)))) := by
  induction es generalizing s with
  | nil => rfl
  | cons e es ih =>
    obtain ⟨now, r⟩ := e
    simp only [runAppends, List.map_cons, List.length_cons]
    rw [log_record_tick, ih]
    simp only [log_state_tick]
    rw [List.range_succ_eq_map, List.map_cons, List.map_map]
    refine congrArg₂ List.cons (by simp) ?_
    refine List.map_congr_left ?_
    intro i _
    simp only [Function.comp_apply]
    congr 2
    push_cast
    ring

theorem run_headers (es : List (Int × List (String × Value))) (s : FileWriterState)
    (h : s.fileClosed = false) :
    (runAppends s es).2.map (fun res => res.headerWritten)
      = (List.range es.length).map (fun i : Nat => decide (s.tick + (i : Int) = 0)) := by
  induction es generalizing s with
  | nil => rfl
  | cons e es ih =>
    obtain ⟨now, r⟩ := e
    simp only [runAppends, List.map_cons, List.length_cons]
    have hc : (log s now r).state.fileClosed = false := by rw [log_state_fileClosed, h]
    rw [log_headerWritten s now r h, ih _ hc]
    simp only [log_state_tick]
    rw [List.range_succ_eq_map, List.map_cons, List.map_map]
    refine congrArg₂ List.cons (by simp) ?_
    refine List.map_congr_left ?_
    intro i _
    simp only [Function.comp_apply]
    refine decide_eq_decide.mpr ?_
    push_cast
    constructor <;> intro hh <;> omega

/-- An existing logs csv whose last data row has tick 7: header, the
tick 0 row, then the tick 7 row. -/
def c1File : List (List String) := [["_tick", "_time"], ["0", "100"], ["7", "101"]]

/-- C1: evaluation of the resume logic at the failing input.  The claim
says that reopening a log whose last row has tick 7 makes the next
appended row carry `_tick == 8`; the code instead parses the
second-to-last row (tick 0) and assigns `_tick == 1`, contradicting the
source comment that the last tick from the logs file plus one is used. -/
theorem resume_tick_off_by_one :
    (initResume (some c1File)).tick = 1
    ∧ dictGet (log (initFileWriter (some c1File) mdSample) 200 []).record "_tick"
        = some (Value.int 1)
    ∧ (initResume (some c1File)).tick ≠ 8 := by
  refine ⟨by decide, ?_, by decide⟩
  rw [log_record_tick]
  decide

/-- C2 counterexample: with the metadata rewrite failing at close, the
exception propagates and the log file handle of a concrete open writer
is left open, refuting the claim that the handle release is always-run
cleanup. -/
theorem close_handle_leak_cex :
    (close stSample 9 true true).2 = some CloseErr.metaWriteFailed
    ∧ (close stSample 9 true true).1.fileClosed = false :=
  ⟨rfl, rfl⟩

/-- C2 (amended): the metadata write is ordered before the handle
release, and the handle is released whenever the metadata write
succeeds; but the release is not wrapped in always-run cleanup, so when
the metadata write raises, the handle state is left exactly as it was
(an open handle stays open) and the error propagates to the caller. -/
theorem close_release_order (s : FileWriterState) (tEnd : Int) (b : Bool) :
    ((close s tEnd b false).1.fileClosed = true ∧ (close s tEnd b false).2 = none)
    ∧ ((close s tEnd b true).1.fileClosed = s.fileClosed
        ∧ (close s tEnd b true).2 = some CloseErr.metaWriteFailed) :=
  ⟨⟨rfl, rfl⟩, ⟨rfl, rfl⟩⟩

/-- An existing logs csv that holds only a header line: resuming it
recovers next tick 0. -/
def headerOnlyFile : List (List String) := [["_tick", "_time"]]

/-- C3 counterexample: resuming an existing on-disk log (the
existing-file warning is emitted) whose recovered next tick is 0 makes
the very next append write a header line again, refuting the clause
that a header is never written when resuming an existing log. -/
theorem header_on_resume_cex :
    (initResume (some headerOnlyFile)).resumeWarned = true
    ∧ (log (initFileWriter (some headerOnlyFile) mdSample) 100 []).headerWritten = true :=
  ⟨rfl, rfl⟩

/-- C3 (amended): a header line is written if and only if the tick
assigned to the append call equals exactly 0; hence on a fresh log it
appears exactly once, at the first append, and never again even when
later appends introduce new columns; on resume it is not written
provided the recovered next tick is nonzero, but a resume that falls
back to tick 0 writes a header again at the next append. -/
theorem header_iff_tick_zero :
    (∀ (s : FileWriterState) (now : Int) (r : List (String × Value)),
        s.fileClosed = false → ((log s now r).headerWritten = true ↔ s.tick = 0))
    ∧ (∀ (m0 : Metadata) (es : List (Int × List (String × Value))),
        (runAppends (initFileWriter none m0) es).2.map (fun res => res.headerWritten)
          = (List.range es.length).map (fun i : Nat => decide ((i : Int) = 0)))
    ∧ (∀ (file : Option (List (List String))) (m0 : Metadata) (now : Int)
        (r : List (String × Value)), (initResume file).tick ≠ 0 →
        (log (initFileWriter file m0) now r).headerWritten = false) := by
  refine ⟨?_, ?_, ?_⟩
  · intro s now r h
    rw [log_headerWritten s now r h]
    simp
  · intro m0 es
    rw [run_headers _ _ rfl]
    refine List.map_congr_left ?_
    intro i _
    have h0 : (initFileWriter none m0).tick = 0 := rfl
    rw [h0]
    refine decide_eq_decide.mpr ?_
    constructor <;> intro hh <;> omega
  · intro file m0 now r ht
    have hcl : (initFileWriter file m0).fileClosed = false := rfl
    rw [log_headerWritten _ _ _ hcl]
    have htick : (initFileWriter file m0).tick = (initResume file).tick := rfl
    rw [htick]
    exact decide_eq_false ht

/-- An existing logs csv resumed at a nonzero tick: second-to-last row
carries tick 0, so the next tick is 1. -/
def resumedFile : List (List String) := [["_tick", "_time"], ["0", "90"], ["3", "91"]]

/-- Witness for C3 (amended), at a concrete resumed file whose recovered
next tick is nonzero: no header line is written by the next append. -/
theorem header_iff_tick_zero_witness :
    (initResume (some resumedFile)).tick ≠ 0
    ∧ (log (initFileWriter (some resumedFile) mdSample) 50 []).headerWritten = false :=
  ⟨by decide, header_iff_tick_zero.2.2 (some resumedFile) mdSample 50 [] (by decide)⟩

/-- C4: corrupt resume state is non-fatal.  Whenever the relevant prior
row (the second-to-last line, the one the code consults) is nonempty and
its first field does not parse as an integer, construction warns
(warnings.warn), does not raise (the construction is total and returns a
state), the recovered next tick is 0, and the next appended record is
assigned `_tick == 0`. -/
theorem corrupt_resume_nonfatal (lines : List (List String)) (m0 : Metadata) (now : Int)
    (r : List (String × Value))
    (h1 : 2 ≤ lines.length)
    (h2 : 0 < (lines.getD (lines.length - 2) []).length)
    (h3 : pyInt ((lines.getD (lines.length - 2) []).headD "") = none) :
    (initResume (some lines)).parseWarned = true
    ∧ (initResume (some lines)).tick = 0
    ∧ dictGet (log (initFileWriter (some lines) m0) now r).record "_tick"
        = some (Value.int 0) := by
  have hc : 2 ≤ lines.length ∧ 0 < (lines.getD (lines.length - 2) []).length := ⟨h1, h2⟩
  have hcore : initResume (some lines)
      = { fieldnames :=
            if 0 < lines.length then normalizeTick (lines.headD []) else ["_tick", "_time"]
          tick := 0
          parseWarned := true
          resumeWarned := true } := by
    simp only [initResume]
    rw [if_pos hc, h3]
  refine ⟨by rw [hcore], by rw [hcore], ?_⟩
  rw [log_record_tick]
  have htick : (initFileWriter (some lines) m0).tick = (initResume (some lines)).tick := rfl
  rw [htick, hcore]

/-- An existing logs csv whose relevant prior row begins with the
literal text corrupt. -/
def corruptFile : List (List String) :=
  [["_tick", "_time"], ["corrupt", "x"], ["5", "y"]]

/-- Witness for C4 at a concrete malformed file. -/
theorem corrupt_resume_nonfatal_witness :
    pyInt "corrupt" = none
    ∧ ((initResume (some corruptFile)).parseWarned = true
      ∧ (initResume (some corruptFile)).tick = 0
      ∧ dictGet (log (initFileWriter (some corruptFile) mdSample) 7 []).record "_tick"
          = some (Value.int 0)) :=
  ⟨by decide,
    corrupt_resume_nonfatal corruptFile mdSample 7 [] (by decide) (by decide) (by decide)⟩

/-- C5: on a fresh log, after any sequence of appends the column list
equals the two reserved columns followed by the first-seen-order union
of the keys of the appended records (reserved names not repeated), it
has no duplicates, and one more append only ever extends the column
list at its end. -/
theorem columns_first_seen_union (m0 : Metadata) (es : List (Int × List (String × Value))) :
    (runAppends (initFileWriter none m0) es).1.fieldnames
        = specColumns (es.map (fun e => e.2.map Prod.fst))
    ∧ ((runAppends (initFileWriter none m0) es).1.fieldnames).Nodup
    ∧ ∀ e, ∃ t, (runAppends (initFileWriter none m0) (es ++ [e])).1.fieldnames
        = (runAppends (initFileWriter none m0) es).1.fieldnames ++ t := by
  have hrun : ∀ (l : List (Int × List (String × Value))),
      (runAppends (initFileWriter none m0) l).1.fieldnames
        = updateFields reservedCols
            ((l.map (fun e => mutatedKeys (e.2.map Prod.fst))).flatten) := by
    intro l
    rw [run_fieldnames]
    rfl
  refine ⟨?_, ?_, ?_⟩
  · rw [hrun]
    have h0 : updateFields reservedCols
          ((es.map (fun e => mutatedKeys (e.2.map Prod.fst))).flatten)
        = List.foldl addCol (reservedCols ++ [])
            ((es.map (fun e => mutatedKeys (e.2.map Prod.fst))).flatten) := rfl
    rw [h0, updateFields_base_absorb, specColumns]
    have hmap : (es.map (fun e => e.2.map Prod.fst)).map mutatedKeys
        = es.map (fun e => mutatedKeys (e.2.map Prod.fst)) := by
      rw [List.map_map]
      rfl
    have heq : dropKeys reservedCols
          ((es.map (fun e => mutatedKeys (e.2.map Prod.fst))).flatten)
        = dropKeys reservedCols ((es.map (fun e => e.2.map Prod.fst)).flatten) := by
      rw [← hmap]
      exact dropKeys_flatten_mutated _
    rw [heq]
    rfl
  · rw [hrun]
    exact nodup_updateFields _ _ (by decide)
  · intro e
    rw [hrun (es ++ [e]), hrun es]
    have hsplit : (((es ++ [e]).map (fun e => mutatedKeys (e.2.map Prod.fst))).flatten)
        = ((es.map (fun e => mutatedKeys (e.2.map Prod.fst))).flatten)
          ++ mutatedKeys (e.2.map Prod.fst) := by
      simp
    rw [hsplit, updateFields_append]
    exact updateFields_grows _ _

/-- C6: on a fresh log, the ticks assigned to a sequence of appends and
recorded in each mutated record are exactly 0, 1, 2, up to one less than
the number of calls, in call order. -/
theorem fresh_ticks_contiguous (m0 : Metadata) (es : List (Int × List (String × Value))) :
    (runAppends (initFileWriter none m0) es).2.map (fun res => dictGet res.record "_tick")
      = (List.range es.length).map (fun i : Nat => some (Value.int (i : Int))) := by
  rw [run_record_ticks]
  refine List.map_congr_left ?_
  intro i _
  have h0 : (initFileWriter none m0).tick = 0 := rfl
  rw [h0]
  simp

/-- C7: closing with successful set to true persists a metadata record
whose date_end is the close-time timestamp (strictly later than
date_start whenever the clock advanced), whose successful flag is true,
and whose every other field is exactly what was recorded at open. -/
theorem close_success_metadata (s : FileWriterState) (tEnd : Int)
    (h : s.metadata.date_start < tEnd) :
    (close s tEnd true false).2 = none
    ∧ (close s tEnd true false).1.diskMeta = some ((close s tEnd true false).1.metadata)
    ∧ (close s tEnd true false).1.metadata.successful = true
    ∧ (close s tEnd true false).1.metadata.date_end = some tEnd
    ∧ (∀ t, (close s tEnd true false).1.metadata.date_end = some t →
        (close s tEnd true false).1.metadata.date_start < t)
    ∧ (close s tEnd true false).1.metadata.date_start = s.metadata.date_start
    ∧ (close s tEnd true false).1.metadata.git = s.metadata.git
    ∧ (close s tEnd true false).1.metadata.slurm = s.metadata.slurm
    ∧ (close s tEnd true false).1.metadata.env = s.metadata.env
    ∧ (close s tEnd true false).1.metadata.args = s.metadata.args
    ∧ (close s tEnd true false).1.metadata.xpid = s.metadata.xpid := by
  refine ⟨rfl, rfl, rfl, rfl, ?_, rfl, rfl, rfl, rfl, rfl, rfl⟩
  intro t ht
  have hend : (close s tEnd true false).1.metadata.date_end = some tEnd := rfl
  rw [hend] at ht
  have htt : tEnd = t := Option.some.inj ht
  have hds : (close s tEnd true false).1.metadata.date_start = s.metadata.date_start := rfl
  rw [hds, ← htt]
  exact h

/-- Witness for C7 at a concrete state and close time. -/
theorem close_success_metadata_witness :
    stSample.metadata.date_start < 5
    ∧ ((close stSample 5 true false).1.metadata.date_end = some 5
      ∧ (close stSample 5 true false).1.metadata.successful = true) :=
  ⟨by decide,
    ⟨(close_success_metadata stSample 5 (by decide)).2.2.2.1,
      (close_success_metadata stSample 5 (by decide)).2.2.1⟩⟩

/-- C8: when a metadata file already exists at the target path and
overwrite is false, the write is skipped with a warning and the on-disk
content is unchanged; with overwrite true the old file is replaced by
the fresh metadata; with no prior file the fresh metadata is written. -/
theorem meta_collision_policy (old fresh : String) (ow : Bool) :
    metaOpenPolicy (some old) false fresh = (some old, true)
    ∧ metaOpenPolicy (some old) true fresh = (some fresh, false)
    ∧ metaOpenPolicy none ow fresh = (some fresh, false) :=
  ⟨rfl, rfl, rfl⟩

/-- C9: a close whose metadata write succeeds raises nothing and
releases the log file handle, and a subsequent log call returns the
closed-log error to the caller instead of appending. -/
theorem append_after_close_errors (s : FileWriterState) (tEnd now : Int)
    (r : List (String × Value)) :
    (close s tEnd true false).2 = none
    ∧ (close s tEnd true false).1.fileClosed = true
    ∧ (log (close s tEnd true false).1 now r).error = some LogError.closedLog := by
  refine ⟨rfl, rfl, ?_⟩
  rw [log_error]
  rfl

/-- C10: every log call sets the `_tick` and `_time` keys in the caller
record and advances the tick counter, and these effects precede any file
write: they hold for every state, in particular for a closed writer
whose log call fails with the closed-log error. -/
theorem log_mutates_before_write (s : FileWriterState) (now : Int)
    (r : List (String × Value)) :
    dictGet (log s now r).record "_tick" = some (Value.int s.tick)
    ∧ dictGet (log s now r).record "_time" = some (Value.int now)
    ∧ (log s now r).state.tick = s.tick + 1
    ∧ (log s now r).error = (if s.fileClosed then some LogError.closedLog else none) :=
  ⟨log_record_tick s now r, log_record_time s now r, log_state_tick s now r,
    log_error s now r⟩

end FileWriter
